import Mathlib

/-!
# Verification of the metavoxel edit commands (MetavoxelMessages.cpp)

A shallow embedding of the edit-command layer of the metavoxel spatial data
engine: the visitors used by the edit commands (`BoxSetEditVisitor`,
`GlobalSetEditVisitor`, `UpdateSpannerVisitor`, `SetSpannerEditVisitor`) and
the `apply` functions of the edit variants, together with proofs of the
behavioural properties claimed of them.

Floating-point scalars of the source are modelled as rationals (the operations
involved — `max`, `min`, `+`, `-`, `*`, `/` and comparisons — are exact);
the LOD-step formula, which uses a transcendental logarithm, is modelled over
the reals.  Pointer identity of shared objects is modelled by an integer
identity field `sid`; a mutation that may return a fresh instance is modelled
as returning `Option` (with `none` meaning "the same instance came back").
-/

/-- Component-wise 3-vector of rationals, standing for `glm::vec3`. -/
structure Vec3 where
  x : ℚ
  y : ℚ
  z : ℚ
deriving DecidableEq, Repr

namespace Vec3

/-- Component-wise maximum, `glm::max`. -/
def max3 (a b : Vec3) : Vec3 := ⟨max a.x b.x, max a.y b.y, max a.z b.z⟩

/-- Component-wise minimum, `glm::min`. -/
def min3 (a b : Vec3) : Vec3 := ⟨min a.x b.x, min a.y b.y, min a.z b.z⟩

/-- Component-wise addition. -/
def add (a b : Vec3) : Vec3 := ⟨a.x + b.x, a.y + b.y, a.z + b.z⟩

/-- Component-wise subtraction. -/
def sub (a b : Vec3) : Vec3 := ⟨a.x - b.x, a.y - b.y, a.z - b.z⟩

end Vec3

/-- Axis-aligned box, `minimum`/`maximum` corners (the `Box` of the shared
geometry library). -/
structure Box where
  minimum : Vec3
  maximum : Vec3
deriving DecidableEq, Repr

namespace Box

/-- Modelled from the spec: `Box::contains`, full containment of `o` in `b`
(component-wise; the geometry library implementing it is not among the given
sources). -/
def containsB (b o : Box) : Bool :=
  decide (b.minimum.x ≤ o.minimum.x ∧ b.minimum.y ≤ o.minimum.y ∧
    b.minimum.z ≤ o.minimum.z ∧ o.maximum.x ≤ b.maximum.x ∧
    o.maximum.y ≤ b.maximum.y ∧ o.maximum.z ≤ b.maximum.z)

/-- Modelled from the spec: `Box::intersects`, closed axis-aligned overlap
test (the geometry library implementing it is not among the given sources). -/
def intersectsB (a b : Box) : Bool :=
  decide (a.minimum.x ≤ b.maximum.x ∧ b.minimum.x ≤ a.maximum.x ∧
    a.minimum.y ≤ b.maximum.y ∧ b.minimum.y ≤ a.maximum.y ∧
    a.minimum.z ≤ b.maximum.z ∧ b.minimum.z ≤ a.maximum.z)

end Box

/-- An attribute value: the attribute id it is tagged with and an opaque
payload.  Payloads are opaque to every edit command modelled here. -/
structure AttributeValue where
  attr : ℕ
  payload : ℕ
deriving DecidableEq, Repr

/-- `AttributeValue(attribute)` — the attribute's default value, produced when
the update visitor resets an output before blending. -/
def defaultValueOf (a : ℕ) : AttributeValue := ⟨a, 0⟩

/-- Result of `MetavoxelVisitor::visit`: stop recursing at this node, or
subdivide into the eight children in the default deterministic order. -/
inductive VisitResult where
  | STOP_RECURSION
  | DEFAULT_ORDER
deriving DecidableEq, Repr

/-! ## BoxSetEditVisitor (claim C1) -/

/-- `BoxSetEditVisitor::visit`, translated from the source.  The visitor's
state is the edit (`region`, `granularity`, `value`); the relevant fields of
the `MetavoxelInfo` argument are `minimum` and `size`; the returned pair is
the visit result together with the value written to `outputValues[0]`
(`none` when the slot is left untouched). -/
def boxSetVisit (region : Box) (granularity : ℚ) (value : AttributeValue)
    (minimum : Vec3) (size : ℚ) : VisitResult × Option AttributeValue :=
  let m := Vec3.max3 minimum region.minimum
  let mx := Vec3.min3 (Vec3.add minimum ⟨size, size, size⟩) region.maximum
  let ext := Vec3.sub mx m
  if ext.x ≤ 0 ∨ ext.y ≤ 0 ∨ ext.z ≤ 0 then
    (.STOP_RECURSION, none)
  else
    let volume := ext.x * ext.y * ext.z / (size * size * size)
    if 1 ≤ volume then
      (.STOP_RECURSION, some value)
    else if size ≤ granularity then
      (.STOP_RECURSION, if 1/2 ≤ volume then some value else none)
    else
      (.DEFAULT_ORDER, none)

/-- The case analysis claimed of `BoxSetEditVisitor::visit`, following the
specification's wording: compute the intersection of the node's cube with the
edit region; a degenerate intersection (some component of its extent `≤ 0`)
stops recursion with no output; an overlap volume fraction (intersection
volume over node volume) `≥ 1` assigns the value and stops; at the
granularity limit (`size ≤ granularity`) the value is assigned iff the
fraction is `≥ 1/2`, stopping either way; otherwise subdivision is
requested. -/
def boxSetVisitSpec (region : Box) (granularity : ℚ) (value : AttributeValue)
    (minimum : Vec3) (size : ℚ) : VisitResult × Option AttributeValue :=
  let inter : Box := ⟨Vec3.max3 minimum region.minimum,
    Vec3.min3 (Vec3.add minimum ⟨size, size, size⟩) region.maximum⟩
  let ext := Vec3.sub inter.maximum inter.minimum
  let interVolume := ext.x * ext.y * ext.z
  let nodeVolume := size ^ 3
  let overlapFraction := interVolume / nodeVolume
  if ext.x ≤ 0 ∨ ext.y ≤ 0 ∨ ext.z ≤ 0 then
    (.STOP_RECURSION, none)
  else if overlapFraction ≥ 1 then
    (.STOP_RECURSION, some value)
  else if size ≤ granularity then
    if overlapFraction ≥ 1/2 then (.STOP_RECURSION, some value)
    else (.STOP_RECURSION, none)
  else
    (.DEFAULT_ORDER, none)

/-- C1: `BoxSetEditVisitor::visit` follows exactly the claimed case analysis,
and in particular, at the granularity limit, an overlap fraction of exactly
`1/2` assigns the value while any smaller fraction leaves the node
unchanged. -/
theorem C1_boxSetVisit_case_analysis :
    (∀ (region : Box) (granularity : ℚ) (value : AttributeValue)
      (minimum : Vec3) (size : ℚ),
      boxSetVisit region granularity value minimum size =
        boxSetVisitSpec region granularity value minimum size) ∧
    (∀ value : AttributeValue,
      boxSetVisit ⟨⟨0, 0, 0⟩, ⟨1/2, 1, 1⟩⟩ 1 value ⟨0, 0, 0⟩ 1 =
        (.STOP_RECURSION, some value) ∧
      boxSetVisit ⟨⟨0, 0, 0⟩, ⟨1/4, 1, 1⟩⟩ 1 value ⟨0, 0, 0⟩ 1 =
        (.STOP_RECURSION, none)) := by
  constructor
  · intro region granularity value minimum size
    simp only [boxSetVisit, boxSetVisitSpec, ge_iff_le]
    have h3 : size ^ 3 = size * size * size := by ring
    rw [h3]
    split_ifs <;> rfl
  · intro value
    constructor <;>
      · simp only [boxSetVisit, Vec3.max3, Vec3.min3, Vec3.add, Vec3.sub]
        norm_num

/-! ## HeightfieldMaterialSpannerEdit colour rule (claim C7) -/

/-- An RGBA colour with rational channels, standing for `QColor` with its
floating-point channel accessors (`alphaF` etc.). -/
structure ColorQ where
  r : ℚ
  g : ℚ
  b : ℚ
  a : ℚ
deriving DecidableEq, Repr

/-- The effective-colour computation at the start of
`HeightfieldMaterialSpannerEdit::apply`, translated from the source: in
`paint` mode the alpha is forced to `1`; otherwise an alpha below `1/2`
collapses the colour to `QColor(0, 0, 0, 0)`; otherwise the colour passes
through unchanged. -/
def effectiveColor (paint : Bool) (averageColor : ColorQ) : ColorQ :=
  if paint then
    { averageColor with a := 1 }
  else if averageColor.a < 1/2 then
    ⟨0, 0, 0, 0⟩
  else
    averageColor

/-- The colour rule as the specification words it: when `paint` is true, full
opacity with the colour channels unchanged; when `paint` is false and the
source alpha is below the `1/2` threshold, the fully transparent colour; in
the remaining case the original colour. -/
def effectiveColorSpec (paint : Bool) (averageColor : ColorQ) : ColorQ :=
  if paint = false ∧ averageColor.a < 1/2 then ⟨0, 0, 0, 0⟩
  else if paint then ⟨averageColor.r, averageColor.g, averageColor.b, 1⟩
  else averageColor

/-- C7: the effective colour stored by `HeightfieldMaterialSpannerEdit` obeys
the claimed quantization rule, and in particular with `paint = false` an
average-colour alpha of `2/5` (0.4) collapses to the fully transparent colour
while an alpha of `3/5` (0.6) retains the original colour. -/
theorem C7_effectiveColor_quantization :
    (∀ (paint : Bool) (c : ColorQ),
      effectiveColor paint c = effectiveColorSpec paint c) ∧
    (∀ r g b : ℚ,
      effectiveColor false ⟨r, g, b, 2/5⟩ = ⟨0, 0, 0, 0⟩ ∧
      effectiveColor false ⟨r, g, b, 3/5⟩ = ⟨r, g, b, 3/5⟩) := by
  constructor
  · intro paint c
    cases paint <;> simp [effectiveColor, effectiveColorSpec]
  · intro r g b
    constructor <;> simp [effectiveColor] <;> norm_num

/-! ## UpdateSpannerVisitor (claims C2, C5, C10) -/

/-- A spanner as seen by the edit commands: its shared-object identity (the
pointer, modelled as a number), its bounds and its placement granularity. -/
structure SpannerT where
  sid : ℕ
  bounds : Box
  placementGranularity : ℚ
deriving DecidableEq, Repr

/-- `MetavoxelInfo` as used by `UpdateSpannerVisitor::visit`: the node corner
and size, the spanner set stored at this node for the spanners attribute
(`inputValues.at(outputs.size).getInlineValue<SharedObjectSet>()`), and the
non-owning back-reference to the parent's info. -/
inductive MInfo where
  | mk (minimum : Vec3) (size : ℚ) (spannerSet : List SpannerT)
      (parentInfo : Option MInfo)

/-- The node corner stored in an `MInfo`. -/
def MInfo.minimum : MInfo → Vec3
  | .mk m _ _ _ => m

/-- The node size stored in an `MInfo`. -/
def MInfo.size : MInfo → ℚ
  | .mk _ s _ _ => s

/-- The spanner set stored in an `MInfo`. -/
def MInfo.spannerSet : MInfo → List SpannerT
  | .mk _ _ ss _ => ss

/-- The parent back-reference stored in an `MInfo`. -/
def MInfo.parentInfo : MInfo → Option MInfo
  | .mk _ _ _ p => p

/-- `MetavoxelInfo::getBounds`: the cube from the corner with the node's
edge length. -/
def MInfo.getBounds (i : MInfo) : Box :=
  ⟨i.minimum, Vec3.add i.minimum ⟨i.size, i.size, i.size⟩⟩

/-- The ancestor walk of `UpdateSpannerVisitor::visit`, translated from the
source: starting from a `parentInfo` pointer, follow `parentInfo` links for
at most `n` further iterations, stopping early (with `none`) when a null
link is reached. -/
def walkUp : Option MInfo → ℕ → Option MInfo
  | p, 0 => p
  | none, _ + 1 => none
  | some q, n + 1 => walkUp q.parentInfo n

/-- The list of proper ancestors of a node info, nearest first: the parent,
then the grandparent, and so on up to the root. -/
def MInfo.ancestors : MInfo → List MInfo
  | .mk _ _ _ none => []
  | .mk _ _ _ (some p) => p :: p.ancestors

/-- The info reached from `info` by walking up exactly `k` `parentInfo`
links (`none` when the chain is shorter than `k`). -/
def ancestorAfterLinks (info : MInfo) (k : ℕ) : Option MInfo :=
  match k with
  | 0 => some info
  | k + 1 => info.ancestors.get? k

/-- The state of an `UpdateSpannerVisitor`: the spanner being inserted or
removed, the ids of the output attributes (the spanner's voxelized
attributes), and the two constructor-computed parameters `_voxelizationSize`
and `_steps`. -/
structure UpdateSpannerVisitorT where
  spanner : SpannerT
  outputs : List ℕ
  voxelizationSize : ℚ
  steps : ℤ

/-- `UpdateSpannerVisitor::visit`, translated from the source.  The result
records the visit result, the output values written (`none` when the early
disjointness return writes nothing; otherwise the per-output defaults written
before blending), and the list of spanners passed to `blendAttributeValues`,
in order. -/
def updateSpannerVisit (v : UpdateSpannerVisitorT) (info : MInfo) :
    VisitResult × Option (List AttributeValue) × List SpannerT :=
  if !(info.getBounds.intersectsB v.spanner.bounds) then
    (.STOP_RECURSION, none, [])
  else
    let ancestor := walkUp info.parentInfo v.steps.toNat
    let written := v.outputs.map defaultValueOf
    let blended :=
      match ancestor with
      | some a => a.spannerSet
      | none => []
    (if v.voxelizationSize < info.size then .DEFAULT_ORDER else .STOP_RECURSION,
      some written, blended)

/-- The behaviour claimed of `UpdateSpannerVisitor::visit` as a function of
the number of `parentInfo` links walked to reach the ancestor whose spanner
set is blended: stop with no output when the node's bounds do not intersect
the spanner's bounds; otherwise overwrite every output with its default,
blend every spanner of the ancestor reached after `links` upward steps (none
when the chain is too short), and subdivide iff the node size exceeds the
voxelization size. -/
def updateSpannerVisitAt (links : ℕ) (v : UpdateSpannerVisitorT)
    (info : MInfo) : VisitResult × Option (List AttributeValue) × List SpannerT :=
  if !(info.getBounds.intersectsB v.spanner.bounds) then
    (.STOP_RECURSION, none, [])
  else
    let blended :=
      match ancestorAfterLinks info links with
      | some a => a.spannerSet
      | none => []
    (if v.voxelizationSize < info.size then .DEFAULT_ORDER else .STOP_RECURSION,
      some (v.outputs.map defaultValueOf), blended)

/-- The walk of the source equals list indexing into the ancestor chain. -/
theorem walkUp_parentInfo_eq_ancestors_get (n : ℕ) :
    ∀ info : MInfo, walkUp info.parentInfo n = info.ancestors.get? n := by
  induction n with
  | zero =>
    intro info
    cases info with
    | mk m s ss p =>
      cases p <;> simp [walkUp, MInfo.parentInfo, MInfo.ancestors]
  | succ n ih =>
    intro info
    cases info with
    | mk m s ss p =>
      cases p with
      | none => simp [walkUp, MInfo.parentInfo, MInfo.ancestors]
      | some q =>
        simp only [MInfo.parentInfo, MInfo.ancestors, walkUp, List.get?]
        exact ih q

/-- C2 (amended): `UpdateSpannerVisitor::visit` stops with no output on a
node disjoint from the spanner's bounds; otherwise it overwrites every output
with its default, blends every spanner found in the ancestor reached by
walking up `steps + 1` `parentInfo` links (one to the parent, then `steps`
more), and subdivides iff the node size exceeds the voxelization size. -/
theorem C2_updateSpannerVisit_blends_ancestor_after_steps_succ_links
    (v : UpdateSpannerVisitorT) (info : MInfo) :
    updateSpannerVisit v info = updateSpannerVisitAt (v.steps.toNat + 1) v info := by
  simp only [updateSpannerVisit, updateSpannerVisitAt, ancestorAfterLinks,
    walkUp_parentInfo_eq_ancestors_get]

/-- C2 (counterexample): with a step count of `1`, on a node whose parent's
spanner set holds one spanner and whose grandparent's is empty, the visitor
blends the grandparent's (empty) set — two links up — not the parent's set
one link up as the claim states, so the visit differs from the claimed
behaviour at `steps` links. -/
theorem C2_counterexample_walks_one_more_link :
    updateSpannerVisit
        ⟨⟨0, ⟨⟨0, 0, 0⟩, ⟨8, 8, 8⟩⟩, 1⟩, [], 10, 1⟩
        (.mk ⟨0, 0, 0⟩ 1 []
          (some (.mk ⟨0, 0, 0⟩ 2 [⟨7, ⟨⟨0, 0, 0⟩, ⟨1, 1, 1⟩⟩, 1⟩]
            (some (.mk ⟨0, 0, 0⟩ 4 [] none))))) ≠
      updateSpannerVisitAt ((1 : ℤ).toNat)
        ⟨⟨0, ⟨⟨0, 0, 0⟩, ⟨8, 8, 8⟩⟩, 1⟩, [], 10, 1⟩
        (.mk ⟨0, 0, 0⟩ 1 []
          (some (.mk ⟨0, 0, 0⟩ 2 [⟨7, ⟨⟨0, 0, 0⟩, ⟨1, 1, 1⟩⟩, 1⟩]
            (some (.mk ⟨0, 0, 0⟩ 4 [] none))))) := by
  norm_num [updateSpannerVisit, updateSpannerVisitAt, walkUp, ancestorAfterLinks,
    MInfo.getBounds, MInfo.minimum, MInfo.size, MInfo.parentInfo,
    MInfo.spannerSet, MInfo.ancestors, Box.intersectsB, Vec3.add,
    defaultValueOf]

/-- C10: on an intersecting node whose `parentInfo` chain is too short for
the ancestor walk (the walk reaches a null link), `UpdateSpannerVisitor::visit`
blends nothing, still overwrites every output with the visitor's default
output values, and decides subdivision exactly by comparing the node size
with the voxelization size. -/
theorem C10_updateSpannerVisit_short_chain
    (v : UpdateSpannerVisitorT) (info : MInfo)
    (hinter : info.getBounds.intersectsB v.spanner.bounds = true)
    (hshort : walkUp info.parentInfo v.steps.toNat = none) :
    updateSpannerVisit v info =
      (if v.voxelizationSize < info.size then .DEFAULT_ORDER
        else .STOP_RECURSION,
       some (v.outputs.map defaultValueOf), []) := by
  simp only [updateSpannerVisit, hinter, hshort, Bool.not_true,
    Bool.false_eq_true, if_false]

/-- Witness for C10 at a concrete root-adjacent node: bounds intersect, the
walk of two steps from a null parent link comes up empty, and the visit
writes the default output and stops. -/
theorem C10_updateSpannerVisit_short_chain_witness :
    updateSpannerVisit ⟨⟨0, ⟨⟨0, 0, 0⟩, ⟨8, 8, 8⟩⟩, 1⟩, [3], 10, 2⟩
        (.mk ⟨0, 0, 0⟩ 1 [] none) =
      (if (10 : ℚ) < (MInfo.mk ⟨0, 0, 0⟩ 1 [] none).size then .DEFAULT_ORDER
        else .STOP_RECURSION,
       some ([3].map defaultValueOf), []) :=
  C10_updateSpannerVisit_short_chain
    ⟨⟨0, ⟨⟨0, 0, 0⟩, ⟨8, 8, 8⟩⟩, 1⟩, [3], 10, 2⟩
    (.mk ⟨0, 0, 0⟩ 1 [] none)
    (by norm_num [Box.intersectsB, MInfo.getBounds, MInfo.minimum, MInfo.size,
      Vec3.add])
    rfl

/-! ## UpdateSpannerVisitor constructor parameters (claim C5) -/

/-- The `_voxelizationSize` initializer of
`UpdateSpannerVisitor::UpdateSpannerVisitor`, translated from the source:
`qMax(spanner bounds longest side, placement granularity) * 2 / M` where `M`
is the spanners attribute's LOD threshold multiplier. -/
def updateSpannerVoxelizationSize (longestSide granularity m : ℚ) : ℚ :=
  max longestSide granularity * 2 / m

/-- The `_steps` initializer of `UpdateSpannerVisitor::UpdateSpannerVisitor`,
translated from the source: `roundf(logf(M) / logf(2) - 2)`. -/
noncomputable def updateSpannerSteps (m : ℝ) : ℤ :=
  round (Real.log m / Real.log 2 - 2)

/-- The voxelization size as the specification words it: twice the larger of
the spanner's longest bounds side and its placement granularity, divided by
the LOD threshold multiplier. -/
def updateSpannerVoxelizationSizeSpec (longestSide granularity m : ℚ) : ℚ :=
  2 * max longestSide granularity / m

/-- The ancestor-blend step count as the specification words it:
`round(log2(M) - 2)`. -/
noncomputable def updateSpannerStepsSpec (m : ℝ) : ℤ :=
  round (Real.logb 2 m - 2)

/-- C5: the update visitor's constructor parameters match the claimed
formulas — the voxelization size is
`max(longest bounds side, placement granularity) * 2 / lodThresholdMultiplier`
and the ancestor-blend step count is `round(log2(lodThresholdMultiplier) - 2)`. -/
theorem C5_updateSpanner_constructor_parameters :
    (∀ longestSide granularity m : ℚ,
      updateSpannerVoxelizationSize longestSide granularity m =
        updateSpannerVoxelizationSizeSpec longestSide granularity m) ∧
    (∀ m : ℝ, updateSpannerSteps m = updateSpannerStepsSpec m) := by
  constructor
  · intro longestSide granularity m
    simp only [updateSpannerVoxelizationSize, updateSpannerVoxelizationSizeSpec,
      mul_comm]
  · intro m
    simp only [updateSpannerSteps, updateSpannerStepsSpec, Real.logb]

/-! ## Metavoxel octree, guide and data (claims C3, C4, C6, C8, C9) -/

/-- Scalar multiple of a vector. -/
def Vec3.smul (c : ℚ) (v : Vec3) : Vec3 := ⟨c * v.x, c * v.y, c * v.z⟩

/-- Modelled from the spec: a `MetavoxelNode` tree for one attribute — a
value-bearing leaf, or an internal node with exactly eight children (a node
is never a partial set). -/
inductive MNode where
  | leaf (value : AttributeValue)
  | internal (children : Fin 8 → MNode)

/-- The child of a node in octant `i`; a leaf's synthesized children inherit
its value (the child input inherited from the node, per the guide
protocol). -/
def MNode.childAt : MNode → Fin 8 → MNode
  | .leaf v, _ => .leaf v
  | .internal children, i => children i

/-- The corner offset of octant `i` in units of the half edge length,
following the fixed deterministic octant order (bit 0 = x, bit 1 = y,
bit 2 = z). -/
def octantOffset (i : Fin 8) : Vec3 :=
  ⟨if i.val % 2 = 1 then 1 else 0,
   if i.val / 2 % 2 = 1 then 1 else 0,
   if i.val / 4 = 1 then 1 else 0⟩

/-- Modelled from the spec: the `guide` traversal for a visitor with one
output attribute, whose visit function reads only the node's corner and
size.  `STOP_RECURSION` with an output replaces the node (path copy) by a
leaf holding the output value; `STOP_RECURSION` without an output keeps the
node; `DEFAULT_ORDER` synthesizes the eight child infos at half size and
recurses.  `fuel` bounds the subdivision depth (the source recursion is
bounded by each visitor's own size checks; with no budget left the node is
kept whenever the visit does not write an output). -/
def guideStepFinal : VisitResult × Option AttributeValue → MNode → MNode
  | (.STOP_RECURSION, some v), _ => .leaf v
  | (.STOP_RECURSION, none), node => node
  | (.DEFAULT_ORDER, _), node => node

/-- One guide step with subdivision budget left: `STOP_RECURSION` with an
output replaces the node by a leaf, without one keeps it, and
`DEFAULT_ORDER` builds the internal node from the recursively guided
children. -/
def guideStep : VisitResult × Option AttributeValue → MNode →
    (Fin 8 → MNode) → MNode
  | (.STOP_RECURSION, some v), _, _ => .leaf v
  | (.STOP_RECURSION, none), node, _ => node
  | (.DEFAULT_ORDER, _), _, children => .internal children

def guideGen (visit : Vec3 → ℚ → VisitResult × Option AttributeValue) :
    ℕ → Vec3 → ℚ → MNode → MNode
  | 0, minimum, size, node => guideStepFinal (visit minimum size) node
  | fuel + 1, minimum, size, node =>
    guideStep (visit minimum size) node fun i =>
      guideGen visit fuel
        (Vec3.add minimum (Vec3.smul (size / 2) (octantOffset i)))
        (size / 2) (node.childAt i)

/-- The octant of a cube (given by corner and half edge length) containing a
position, under the same octant order as `octantOffset`. -/
def octantIndex (minimum : Vec3) (half : ℚ) (position : Vec3) : Fin 8 :=
  ⟨(if minimum.x + half ≤ position.x then 1 else 0) +
    2 * (if minimum.y + half ≤ position.y then 1 else 0) +
    4 * (if minimum.z + half ≤ position.z then 1 else 0),
   by split_ifs <;> norm_num⟩

/-- Modelled from the spec: a point query — descend from the given cube to
the leaf containing the position and return its value. -/
def queryAt : MNode → Vec3 → ℚ → Vec3 → AttributeValue
  | .leaf v, _, _, _ => v
  | .internal children, minimum, size, position =>
    let half := size / 2
    let i := octantIndex minimum half position
    queryAt (children i)
      (Vec3.add minimum (Vec3.smul half (octantOffset i))) half position

/-- `GlobalSetEditVisitor::visit`, translated from the source: write the
edit's value to `outputValues[0]` and stop, for every node info. -/
def globalSetVisit (value : AttributeValue) (minimum : Vec3) (size : ℚ) :
    VisitResult × Option AttributeValue :=
  (.STOP_RECURSION, some value)

/-- The id under which the registry's spanners attribute is modelled
(`AttributeRegistry::getInstance()->getSpannersAttribute()`, looked up by
identity). -/
def spannersAttribute : ℕ := 0

/-- Modelled from the spec: `MetavoxelData` — the overall bounds (an
origin-centred power-of-two cube, kept as its edge length `size`), the
per-attribute spanner collections (as a list of attribute/spanner pairs),
and a root attribute tree. -/
structure MetavoxelData where
  size : ℚ
  spanners : List (ℕ × SpannerT)
  root : MNode

/-- The bounds cube of a `MetavoxelData` of edge length `s`
(`MetavoxelData::getBounds`). -/
def dataBounds (s : ℚ) : Box :=
  ⟨⟨-(s / 2), -(s / 2), -(s / 2)⟩, ⟨s / 2, s / 2, s / 2⟩⟩

/-- Any box is contained in the data bounds after enough doublings. -/
theorem exists_expansion_contains (s : ℚ) (region : Box) (hs : 0 < s) :
    ∃ n : ℕ, (dataBounds (2 ^ n * s)).containsB region = true := by
  obtain ⟨n, hn⟩ := pow_unbounded_of_one_lt
    (2 * (max (max (max (-region.minimum.x) (-region.minimum.y))
        (max (-region.minimum.z) region.maximum.x))
      (max region.maximum.y region.maximum.z)) / s)
    (by norm_num : (1 : ℚ) < 2)
  rw [div_lt_iff hs] at hn
  refine ⟨n, ?_⟩
  have hhalf : (max (max (max (-region.minimum.x) (-region.minimum.y))
      (max (-region.minimum.z) region.maximum.x))
      (max region.maximum.y region.maximum.z)) < 2 ^ n * s / 2 := by
    linarith
  have h1 : -region.minimum.x ≤ 2 ^ n * s / 2 :=
    le_of_lt (lt_of_le_of_lt
      (((le_max_left _ _).trans (le_max_left _ _)).trans (le_max_left _ _)) hhalf)
  have h2 : -region.minimum.y ≤ 2 ^ n * s / 2 :=
    le_of_lt (lt_of_le_of_lt
      (((le_max_right _ _).trans (le_max_left _ _)).trans (le_max_left _ _)) hhalf)
  have h3 : -region.minimum.z ≤ 2 ^ n * s / 2 :=
    le_of_lt (lt_of_le_of_lt
      (((le_max_left _ _).trans (le_max_right _ _)).trans (le_max_left _ _)) hhalf)
  have h4 : region.maximum.x ≤ 2 ^ n * s / 2 :=
    le_of_lt (lt_of_le_of_lt
      (((le_max_right _ _).trans (le_max_right _ _)).trans (le_max_left _ _)) hhalf)
  have h5 : region.maximum.y ≤ 2 ^ n * s / 2 :=
    le_of_lt (lt_of_le_of_lt ((le_max_left _ _).trans (le_max_right _ _)) hhalf)
  have h6 : region.maximum.z ≤ 2 ^ n * s / 2 :=
    le_of_lt (lt_of_le_of_lt ((le_max_right _ _).trans (le_max_right _ _)) hhalf)
  simp only [dataBounds, Box.containsB, decide_eq_true_eq]
  refine ⟨by linarith, by linarith, by linarith, by linarith, by linarith, by linarith⟩

/-- The number of `expand()` doublings performed by
`while (!data.getBounds().contains(region)) data.expand();` — the least
number of doublings after which the bounds contain the region. -/
def doublingsNeeded (s : ℚ) (region : Box) : ℕ :=
  if hs : 0 < s then Nat.find (exists_expansion_contains s region hs) else 0

/-- The bounds edge length after the expansion loop. -/
def expandToFit (s : ℚ) (region : Box) : ℚ :=
  2 ^ doublingsNeeded s region * s

/-- The polymorphic spanner operations invoked by the edit commands; their
implementations are type-specific (heightfields, primitive shapes) and
outside the edit layer, so they are parameters of the model.  An operation
that may return a different instance returns `Option` — `none` models the
same pointer coming back. -/
structure SpannerOps where
  paintHeight : SpannerT → Vec3 → ℚ → ℚ → Option SpannerT
  setMaterial : SpannerT → SpannerT → ℕ → ColorQ → Bool → Option SpannerT
  blend : SpannerT → Vec3 → ℚ → Bool

/-- Modelled from the spec: `MetavoxelData::getIntersecting(attribute, box)`
— the spanners of the attribute's collection whose bounds intersect the
box. -/
def getIntersecting (d : MetavoxelData) (attrib : ℕ) (box : Box) :
    List SpannerT :=
  (d.spanners.filter fun p =>
    p.1 == attrib && p.2.bounds.intersectsB box).map Prod.snd

/-- Modelled from the spec: `MetavoxelData::replace(attribute, old, new)` —
structurally replace the old spanner instance with the new one in the
attribute's collection. -/
def replaceSpanner (d : MetavoxelData) (attrib : ℕ)
    (old new : SpannerT) : MetavoxelData :=
  { d with
    spanners := d.spanners.map fun p =>
      if p.1 == attrib && p.2.sid == old.sid then (p.1, new) else p }

/-- The closed set of edit commands (`MetavoxelEdit` and its subclasses),
each variant carrying exactly the data of the corresponding source class. -/
inductive MetavoxelEdit where
  | boxSet (region : Box) (granularity : ℚ) (value : AttributeValue)
  | globalSet (value : AttributeValue)
  | insertSpanner (attrib : ℕ) (spanner : SpannerT)
  | removeSpanner (attrib : ℕ) (id : ℤ)
  | clearSpanners (attrib : ℕ)
  | setData (minimum : Vec3) (data : MetavoxelData) (blend : Bool)
  | paintHeightfieldHeight (position : Vec3) (radius : ℚ) (height : ℚ)
  | heightfieldMaterialSpanner (spanner : SpannerT) (material : ℕ)
      (averageColor : ColorQ) (paint : Bool)
  | setSpanner (spanner : SpannerT)

/-- `apply(data, objects)` of each edit variant, translated from the source.
`ops` supplies the type-specific spanner operations, `objects` is the
`WeakSharedObjectHash` id table, and `fuel` bounds the guide recursion
depth.  The model tracks the bounds edge length, the spanner collections and
one attribute tree; the revoxelization passes run by the insert- and
remove-spanner edits (`UpdateSpannerVisitor`, claims C2/C10) write only
voxelized attribute values and so leave all three tracked components
unchanged, and `SetDataEdit::apply` merges attribute values outside the
tracked fragment and leaves the bounds and the collections unchanged. -/
def MetavoxelEdit.apply (ops : SpannerOps) (objects : ℤ → Option SpannerT)
    (fuel : ℕ) : MetavoxelEdit → MetavoxelData → MetavoxelData
  | .boxSet region granularity value, d =>
    let s := expandToFit d.size region
    { d with
      size := s,
      root := guideGen (boxSetVisit region granularity value) fuel
        (dataBounds s).minimum s d.root }
  | .globalSet value, d =>
    { d with
      root := guideGen (globalSetVisit value) fuel
        (dataBounds d.size).minimum d.size d.root }
  | .insertSpanner attrib spanner, d =>
    { d with spanners := (attrib, spanner) :: d.spanners }
  | .removeSpanner attrib id, d =>
    match objects id with
    | none => d
    | some object =>
      { d with
        spanners := d.spanners.filter fun p =>
          !(p.1 == attrib && p.2.sid == object.sid) }
  | .clearSpanners attrib, d =>
    { d with spanners := d.spanners.filter fun p => !(p.1 == attrib) }
  | .setData _ _ _, d => d
  | .paintHeightfieldHeight position radius height, d =>
    let extents : Vec3 := ⟨radius * (11/10), radius * (11/10), radius * (11/10)⟩
    let results := getIntersecting d spannersAttribute
      ⟨Vec3.sub position extents, Vec3.add position extents⟩
    results.foldl
      (fun acc spanner =>
        match ops.paintHeight spanner position radius height with
        | some newSpanner => replaceSpanner acc spannersAttribute spanner newSpanner
        | none => acc) d
  | .heightfieldMaterialSpanner spanner material averageColor paint, d =>
    let color := effectiveColor paint averageColor
    let results := getIntersecting d spannersAttribute spanner.bounds
    results.foldl
      (fun acc result =>
        match ops.setMaterial result spanner material color paint with
        | some newResult => replaceSpanner acc spannersAttribute result newResult
        | none => acc) d
  | .setSpanner spanner, d =>
    let s := expandToFit d.size spanner.bounds
    { d with
      size := s,
      root := guideGen
        (fun minimum size =>
          if ops.blend spanner minimum size then (.DEFAULT_ORDER, none)
          else (.STOP_RECURSION, none))
        fuel (dataBounds s).minimum s d.root }

/-- After the expansion loop the bounds contain the region. -/
theorem expandToFit_contains (s : ℚ) (region : Box) (hs : 0 < s) :
    (dataBounds (expandToFit s region)).containsB region = true := by
  rw [expandToFit, doublingsNeeded, dif_pos hs]
  exact Nat.find_spec (exists_expansion_contains s region hs)

/-- The expansion loop never shrinks the bounds. -/
theorem le_expandToFit (s : ℚ) (region : Box) (hs : 0 < s) :
    s ≤ expandToFit s region := by
  rw [expandToFit]
  have h2n : (1 : ℚ) ≤ 2 ^ doublingsNeeded s region :=
    one_le_pow₀ (by norm_num)
  nlinarith

/-- The expansion result is the original size scaled by a power of two. -/
theorem expandToFit_eq_pow (s : ℚ) (region : Box) :
    ∃ n : ℕ, expandToFit s region = 2 ^ n * s :=
  ⟨doublingsNeeded s region, rfl⟩

/-- C3: `RemoveSpannerEdit::apply` with an id that is absent from the object
table is a no-op — it returns without touching the `MetavoxelData`, which is
left identical to its pre-edit state. -/
theorem C3_removeSpanner_missing_id_noop
    (ops : SpannerOps) (objects : ℤ → Option SpannerT) (fuel : ℕ)
    (attrib : ℕ) (id : ℤ) (d : MetavoxelData)
    (habsent : objects id = none) :
    MetavoxelEdit.apply ops objects fuel (.removeSpanner attrib id) d = d := by
  simp [MetavoxelEdit.apply, habsent]

/-- Witness for C3: a concrete data value survives a remove edit whose id the
(empty) object table does not know. -/
theorem C3_removeSpanner_missing_id_noop_witness :
    MetavoxelEdit.apply
        ⟨fun _ _ _ _ => none, fun _ _ _ _ _ => none, fun _ _ _ => false⟩
        (fun _ => none) 0 (.removeSpanner 1 5)
        ⟨1, [(1, ⟨9, ⟨⟨0, 0, 0⟩, ⟨1, 1, 1⟩⟩, 1⟩)], .leaf ⟨0, 0⟩⟩ =
      ⟨1, [(1, ⟨9, ⟨⟨0, 0, 0⟩, ⟨1, 1, 1⟩⟩, 1⟩)], .leaf ⟨0, 0⟩⟩ :=
  C3_removeSpanner_missing_id_noop
    ⟨fun _ _ _ _ => none, fun _ _ _ _ _ => none, fun _ _ _ => false⟩
    (fun _ => none) 0 1 5
    ⟨1, [(1, ⟨9, ⟨⟨0, 0, 0⟩, ⟨1, 1, 1⟩⟩, 1⟩)], .leaf ⟨0, 0⟩⟩ rfl

/-- C9: `GlobalSetEditVisitor::visit` writes the edit value and stops for
every node info, and consequently, after a global-set edit, a query at any
position (at any recursion budget and from any cube) returns the globally
set value, whatever the prior structure. -/
theorem C9_globalSet_sets_everywhere :
    (∀ (value : AttributeValue) (minimum : Vec3) (size : ℚ),
      globalSetVisit value minimum size = (.STOP_RECURSION, some value)) ∧
    (∀ (ops : SpannerOps) (objects : ℤ → Option SpannerT) (fuel : ℕ)
      (value : AttributeValue) (d : MetavoxelData)
      (minimum : Vec3) (size : ℚ) (position : Vec3),
      queryAt (MetavoxelEdit.apply ops objects fuel (.globalSet value) d).root
        minimum size position = value) := by
  refine ⟨fun value minimum size => rfl, ?_⟩
  intro ops objects fuel value d minimum size position
  have hguide : guideGen (globalSetVisit value) fuel
      (dataBounds d.size).minimum d.size d.root = .leaf value := by
    cases fuel <;> simp [guideGen, guideStepFinal, guideStep, globalSetVisit]
  simp [MetavoxelEdit.apply, hguide, queryAt]

/-- C6: `RemoveSpannerEdit::apply` with a present id keeps the spanner value
alive for the revoxelization pass while unlinking it from the attribute's
collection, so a `getIntersecting` query over the removed spanner's old
bounds afterwards returns no match for it. -/
theorem C6_removeSpanner_present_query_no_match
    (ops : SpannerOps) (objects : ℤ → Option SpannerT) (fuel : ℕ)
    (attrib : ℕ) (id : ℤ) (d : MetavoxelData) (object : SpannerT)
    (hpresent : objects id = some object) :
    ((getIntersecting
        (MetavoxelEdit.apply ops objects fuel (.removeSpanner attrib id) d)
        attrib object.bounds).all fun s => s.sid != object.sid) = true := by
  simp only [MetavoxelEdit.apply, hpresent, getIntersecting]
  rw [List.all_eq_true]
  intro s hs
  simp only [List.mem_map, List.mem_filter] at hs
  obtain ⟨p, ⟨⟨-, hkept⟩, hquery⟩, rfl⟩ := hs
  simp only [Bool.and_eq_true, beq_iff_eq] at hquery
  simp only [Bool.not_eq_true', Bool.and_eq_false_iff, beq_eq_false_iff_ne,
    ne_eq] at hkept
  rcases hkept with h | h
  · exact absurd hquery.1 h
  · simpa [bne_iff_ne] using h

/-- Witness for C6: after removing the one stored spanner through its table
id, a query over its old bounds finds nothing matching it. -/
theorem C6_removeSpanner_present_query_no_match_witness :
    ((getIntersecting
        (MetavoxelEdit.apply
          ⟨fun _ _ _ _ => none, fun _ _ _ _ _ => none, fun _ _ _ => false⟩
          (fun _ => some ⟨5, ⟨⟨0, 0, 0⟩, ⟨1, 1, 1⟩⟩, 1⟩) 0
          (.removeSpanner 0 3)
          ⟨1, [(0, ⟨5, ⟨⟨0, 0, 0⟩, ⟨1, 1, 1⟩⟩, 1⟩)], .leaf ⟨0, 0⟩⟩)
        0 (⟨5, ⟨⟨0, 0, 0⟩, ⟨1, 1, 1⟩⟩, 1⟩ : SpannerT).bounds).all
      fun s => s.sid != (⟨5, ⟨⟨0, 0, 0⟩, ⟨1, 1, 1⟩⟩, 1⟩ : SpannerT).sid) = true :=
  C6_removeSpanner_present_query_no_match
    ⟨fun _ _ _ _ => none, fun _ _ _ _ _ => none, fun _ _ _ => false⟩
    (fun _ => some ⟨5, ⟨⟨0, 0, 0⟩, ⟨1, 1, 1⟩⟩, 1⟩) 0 0 3
    ⟨1, [(0, ⟨5, ⟨⟨0, 0, 0⟩, ⟨1, 1, 1⟩⟩, 1⟩)], .leaf ⟨0, 0⟩⟩
    ⟨5, ⟨⟨0, 0, 0⟩, ⟨1, 1, 1⟩⟩, 1⟩ rfl

/-- A fold whose step preserves the bounds edge length preserves it. -/
theorem foldl_size_eq {α : Type} (f : MetavoxelData → α → MetavoxelData)
    (hf : ∀ d a, (f d a).size = d.size) :
    ∀ (L : List α) (d : MetavoxelData), (L.foldl f d).size = d.size := by
  intro L
  induction L with
  | nil => intro d; rfl
  | cons a L ih =>
    intro d
    rw [List.foldl_cons, ih, hf]

/-- C4: no edit shrinks the bounds — every edit scales the bounds edge
length by a (possibly trivial) power of two, so origin-centred power-of-two
cubes stay such cubes — and the two edits that expand (`BoxSetEdit` and
`SetSpannerEdit`) loop doubling until the bounds contain the edit region,
respectively the spanner's bounds. -/
theorem C4_bounds_grow_only
    (ops : SpannerOps) (objects : ℤ → Option SpannerT) (fuel : ℕ)
    (e : MetavoxelEdit) (d : MetavoxelData) (hpos : 0 < d.size) :
    (∃ n : ℕ,
      (MetavoxelEdit.apply ops objects fuel e d).size = 2 ^ n * d.size) ∧
    d.size ≤ (MetavoxelEdit.apply ops objects fuel e d).size ∧
    (∀ region granularity value, e = .boxSet region granularity value →
      (dataBounds (MetavoxelEdit.apply ops objects fuel e d).size).containsB
        region = true) ∧
    (∀ spanner, e = .setSpanner spanner →
      (dataBounds (MetavoxelEdit.apply ops objects fuel e d).size).containsB
        spanner.bounds = true) := by
  have base : ∀ e' : MetavoxelEdit,
      (MetavoxelEdit.apply ops objects fuel e' d).size = d.size →
      (∃ n : ℕ,
        (MetavoxelEdit.apply ops objects fuel e' d).size = 2 ^ n * d.size) ∧
      d.size ≤ (MetavoxelEdit.apply ops objects fuel e' d).size := by
    intro e' h
    exact ⟨⟨0, by rw [h, pow_zero, one_mul]⟩, le_of_eq h.symm⟩
  cases e with
  | boxSet region granularity value =>
    refine ⟨⟨doublingsNeeded d.size region, rfl⟩,
      le_expandToFit d.size region hpos, ?_, ?_⟩
    · intro r g v he
      cases he
      exact expandToFit_contains d.size region hpos
    · intro sp he
      simp at he
  | globalSet value =>
    refine ⟨(base (.globalSet value) rfl).1, (base (.globalSet value) rfl).2,
      ?_, ?_⟩ <;> intro _ _ <;> intros <;> simp_all
  | insertSpanner attrib spanner =>
    refine ⟨(base (.insertSpanner attrib spanner) rfl).1,
      (base (.insertSpanner attrib spanner) rfl).2, ?_, ?_⟩ <;>
      intro _ _ <;> intros <;> simp_all
  | removeSpanner attrib id =>
    have hsz : (MetavoxelEdit.apply ops objects fuel
        (.removeSpanner attrib id) d).size = d.size := by
      cases h : objects id <;> simp [MetavoxelEdit.apply, h]
    refine ⟨(base _ hsz).1, (base _ hsz).2, ?_, ?_⟩ <;> intro _ _ <;> intros <;>
      simp_all
  | clearSpanners attrib =>
    refine ⟨(base (.clearSpanners attrib) rfl).1,
      (base (.clearSpanners attrib) rfl).2, ?_, ?_⟩ <;>
      intro _ _ <;> intros <;> simp_all
  | setData minimum payload blend =>
    refine ⟨(base (.setData minimum payload blend) rfl).1,
      (base (.setData minimum payload blend) rfl).2, ?_, ?_⟩ <;>
      intro _ _ <;> intros <;> simp_all
  | paintHeightfieldHeight position radius height =>
    have hsz : (MetavoxelEdit.apply ops objects fuel
        (.paintHeightfieldHeight position radius height) d).size = d.size := by
      simp only [MetavoxelEdit.apply]
      refine foldl_size_eq _ ?_ _ d
      intro acc sp
      cases h : ops.paintHeight sp position radius height <;>
        simp [replaceSpanner, h]
    refine ⟨(base _ hsz).1, (base _ hsz).2, ?_, ?_⟩ <;> intro _ _ <;> intros <;>
      simp_all
  | heightfieldMaterialSpanner spanner material averageColor paint =>
    have hsz : (MetavoxelEdit.apply ops objects fuel
        (.heightfieldMaterialSpanner spanner material averageColor paint)
          d).size = d.size := by
      simp only [MetavoxelEdit.apply]
      refine foldl_size_eq _ ?_ _ d
      intro acc sp
      cases h : ops.setMaterial sp spanner material
          (effectiveColor paint averageColor) paint <;>
        simp [replaceSpanner, h]
    refine ⟨(base _ hsz).1, (base _ hsz).2, ?_, ?_⟩ <;> intro _ _ <;> intros <;>
      simp_all
  | setSpanner spanner =>
    refine ⟨⟨doublingsNeeded d.size spanner.bounds, rfl⟩,
      le_expandToFit d.size spanner.bounds hpos, ?_, ?_⟩
    · intro r g v he
      simp at he
    · intro sp he
      cases he
      exact expandToFit_contains d.size spanner.bounds hpos

/-- Witness for C4 at a concrete box-set edit on a unit-sized data value. -/
theorem C4_bounds_grow_only_witness :
    (∃ n : ℕ,
      (MetavoxelEdit.apply
        ⟨fun _ _ _ _ => none, fun _ _ _ _ _ => none, fun _ _ _ => false⟩
        (fun _ => none) 0 (.boxSet ⟨⟨0, 0, 0⟩, ⟨1, 1, 1⟩⟩ 1 ⟨0, 0⟩)
        ⟨1, [], .leaf ⟨0, 0⟩⟩).size =
        2 ^ n * (⟨1, [], .leaf ⟨0, 0⟩⟩ : MetavoxelData).size) ∧
    (⟨1, [], .leaf ⟨0, 0⟩⟩ : MetavoxelData).size ≤
      (MetavoxelEdit.apply
        ⟨fun _ _ _ _ => none, fun _ _ _ _ _ => none, fun _ _ _ => false⟩
        (fun _ => none) 0 (.boxSet ⟨⟨0, 0, 0⟩, ⟨1, 1, 1⟩⟩ 1 ⟨0, 0⟩)
        ⟨1, [], .leaf ⟨0, 0⟩⟩).size ∧
    (∀ region granularity value,
      (MetavoxelEdit.boxSet ⟨⟨0, 0, 0⟩, ⟨1, 1, 1⟩⟩ 1 ⟨0, 0⟩ : MetavoxelEdit) =
        .boxSet region granularity value →
      (dataBounds (MetavoxelEdit.apply
        ⟨fun _ _ _ _ => none, fun _ _ _ _ _ => none, fun _ _ _ => false⟩
        (fun _ => none) 0 (.boxSet ⟨⟨0, 0, 0⟩, ⟨1, 1, 1⟩⟩ 1 ⟨0, 0⟩)
        ⟨1, [], .leaf ⟨0, 0⟩⟩).size).containsB region = true) ∧
    (∀ spanner,
      (MetavoxelEdit.boxSet ⟨⟨0, 0, 0⟩, ⟨1, 1, 1⟩⟩ 1 ⟨0, 0⟩ : MetavoxelEdit) =
        .setSpanner spanner →
      (dataBounds (MetavoxelEdit.apply
        ⟨fun _ _ _ _ => none, fun _ _ _ _ _ => none, fun _ _ _ => false⟩
        (fun _ => none) 0 (.boxSet ⟨⟨0, 0, 0⟩, ⟨1, 1, 1⟩⟩ 1 ⟨0, 0⟩)
        ⟨1, [], .leaf ⟨0, 0⟩⟩).size).containsB spanner.bounds = true) :=
  C4_bounds_grow_only
    ⟨fun _ _ _ _ => none, fun _ _ _ _ _ => none, fun _ _ _ => false⟩
    (fun _ => none) 0 (.boxSet ⟨⟨0, 0, 0⟩, ⟨1, 1, 1⟩⟩ 1 ⟨0, 0⟩)
    ⟨1, [], .leaf ⟨0, 0⟩⟩ (by norm_num)

/-- The effect of one paint/material step on one collection entry: when the
operation returns a new instance for the queried spanner `s`, the entry
holding `s` at the attribute is replaced with the new instance, any other
entry is untouched; when the same instance comes back nothing changes. -/
def paintEntry (A : ℕ) (pH : SpannerT → Option SpannerT) (s : SpannerT)
    (p : ℕ × SpannerT) : ℕ × SpannerT :=
  match pH s with
  | some ns => if p.1 == A && p.2.sid == s.sid then (p.1, ns) else p
  | none => p

/-- An entry matched by no processed spanner is left untouched by the whole
pass. -/
theorem foldl_paintEntry_untouched (A : ℕ) (pH : SpannerT → Option SpannerT)
    (R : List SpannerT) (p : ℕ × SpannerT)
    (h : ∀ s ∈ R, (p.1 == A && p.2.sid == s.sid) = false) :
    R.foldl (fun x s => paintEntry A pH s x) p = p := by
  induction R with
  | nil => rfl
  | cons s R ih =>
    rw [List.foldl_cons]
    have hstep : paintEntry A pH s p = p := by
      unfold paintEntry
      cases pH s with
      | none => rfl
      | some ns =>
        rw [h s (List.mem_cons_self s R)]
        simp
    rw [hstep]
    exact ih fun t ht => h t (List.mem_cons_of_mem s ht)

/-- The replace-if-new-instance pass over the whole data equals a single map
of `paintEntry` folds over the collection (the bounds and the tree are
untouched). -/
theorem foldl_replace_eq_map (A : ℕ) (pH : SpannerT → Option SpannerT) :
    ∀ (R : List SpannerT) (d : MetavoxelData),
    R.foldl
      (fun acc s =>
        match pH s with
        | some ns => replaceSpanner acc A s ns
        | none => acc) d =
    ⟨d.size,
      d.spanners.map fun p => R.foldl (fun x s => paintEntry A pH s x) p,
      d.root⟩ := by
  intro R
  induction R with
  | nil =>
    intro d
    simp
  | cons s R ih =>
    intro d
    rw [List.foldl_cons]
    cases h : pH s with
    | none =>
      rw [ih]
      simp only [List.foldl_cons]
      congr 1
      apply List.map_congr_left
      intro p _
      congr 1
      unfold paintEntry
      rw [h]
    | some ns =>
      rw [ih]
      simp only [replaceSpanner, List.foldl_cons, List.map_map]
      congr 1
      apply List.map_congr_left
      intro p _
      simp only [Function.comp]
      congr 1
      unfold paintEntry
      rw [h]

/-- Pointwise characterization of the pass on one collection entry: with
pairwise distinct spanner identities and fresh replacement identities, an
entry is replaced exactly when it is queried (right attribute, query
condition true on its spanner) and the operation returns a new instance;
otherwise it is untouched. -/
theorem foldl_paintEntry_characterize (A : ℕ) (pH : SpannerT → Option SpannerT)
    (qb : SpannerT → Bool) (L : List (ℕ × SpannerT))
    (hnodup : (L.map fun x => x.2.sid).Nodup)
    (p : ℕ × SpannerT) (hp : p ∈ L)
    (hfresh : ∀ ns, pH p.2 = some ns → ns.sid ∉ L.map fun x => x.2.sid) :
    ((L.filter fun x => x.1 == A && qb x.2).map Prod.snd).foldl
      (fun x s => paintEntry A pH s x) p =
    (match pH p.2 with
     | some ns => if p.1 == A && qb p.2 then (p.1, ns) else p
     | none => p) := by
  have hinj : ∀ x ∈ L, ∀ y ∈ L, x.2.sid = y.2.sid → x = y := fun x hx y hy h =>
    List.inj_on_of_nodup_map hnodup hx hy h
  have hmemR : ∀ s ∈ (L.filter fun x => x.1 == A && qb x.2).map Prod.snd,
      ∃ x ∈ L, (x.1 == A && qb x.2) = true ∧ x.2 = s := by
    intro s hs
    simp only [List.mem_map, List.mem_filter] at hs
    obtain ⟨x, ⟨hxL, hxq⟩, rfl⟩ := hs
    exact ⟨x, hxL, hxq, rfl⟩
  by_cases hq : (p.1 == A && qb p.2) = true
  · -- the entry is queried: its spanner occurs exactly once in the results
    have hattr : (p.1 == A) = true := by
      have h := hq
      simp only [Bool.and_eq_true] at h
      exact h.1
    have hpR : p.2 ∈ (L.filter fun x => x.1 == A && qb x.2).map Prod.snd :=
      List.mem_map_of_mem Prod.snd (List.mem_filter.2 ⟨hp, hq⟩)
    obtain ⟨R1, R2, hR⟩ := List.append_of_mem hpR
    have hnodupR : (((L.filter fun x => x.1 == A && qb x.2).map
        Prod.snd).map fun s => s.sid).Nodup := by
      rw [List.map_map]
      exact ((List.filter_sublist L).map _).nodup hnodup
    rw [hR] at hnodupR
    simp only [List.map_append, List.map_cons, List.nodup_append,
      List.nodup_cons, List.mem_cons, List.mem_map] at hnodupR
    rw [hR, List.foldl_append, List.foldl_cons]
    have hR1 : R1.foldl (fun x s => paintEntry A pH s x) p = p := by
      apply foldl_paintEntry_untouched
      intro s hs
      have hne : p.2.sid ≠ s.sid := by
        intro hcontra
        refine hnodupR.2.2 (List.mem_map_of_mem _ hs) ?_
        rw [← hcontra]
        exact List.mem_cons_self _ _
      simp [hne]
    rw [hR1]
    cases hph : pH p.2 with
    | none =>
      have hstep : paintEntry A pH p.2 p = p := by
        simp [paintEntry, hph]
      rw [hstep]
      have hfold : R2.foldl (fun x s => paintEntry A pH s x) p = p := by
        apply foldl_paintEntry_untouched
        intro s hs
        have hne : p.2.sid ≠ s.sid := fun hcontra =>
          hnodupR.2.1.1 ⟨s, hs, hcontra.symm⟩
        simp [hne]
      rw [hfold]
    | some ns =>
      have hstep : paintEntry A pH p.2 p = (p.1, ns) := by
        simp [paintEntry, hph, hattr]
      rw [hstep]
      have hfold : R2.foldl (fun x s => paintEntry A pH s x) (p.1, ns) =
          (p.1, ns) := by
        apply foldl_paintEntry_untouched
        intro s hs
        have hsidL : s.sid ∈ L.map fun x => x.2.sid := by
          have hsR : s ∈ (L.filter fun x => x.1 == A && qb x.2).map
              Prod.snd := by
            rw [hR]
            exact List.mem_append_right R1 (List.mem_cons_of_mem _ hs)
          obtain ⟨x, hxL, -, rfl⟩ := hmemR s hsR
          exact List.mem_map_of_mem _ hxL
        have hne : ns.sid ≠ s.sid := fun hcontra =>
          hfresh ns hph (hcontra ▸ hsidL)
        simp [hne]
      rw [hfold]
      simp [hq]
  · -- the entry is not queried: nothing in the results matches it
    have huntouched : ((L.filter fun x => x.1 == A && qb x.2).map
        Prod.snd).foldl (fun x s => paintEntry A pH s x) p = p := by
      apply foldl_paintEntry_untouched
      intro s hs
      obtain ⟨x, hxL, hxq, rfl⟩ := hmemR s hs
      by_cases hsid : p.2.sid = x.2.sid
      · obtain rfl := hinj p hp x hxL hsid
        exact absurd hxq hq
      · simp [hsid]
    rw [huntouched]
    cases hph : pH p.2 <;> simp [hph, hq]

/-- C8: `PaintHeightfieldHeightEdit::apply` queries the spanners whose
bounds intersect the box `position ± radius * 1.1`, invokes `paintHeight`
on each and — given pairwise distinct spanner identities, with new
instances carrying fresh identities — replaces an entry of the collection
iff `paintHeight` returned a different instance for its spanner; every other
entry, the bounds and the tree are left unchanged. -/
theorem C8_paintHeightfieldHeight_characterization
    (ops : SpannerOps) (objects : ℤ → Option SpannerT) (fuel : ℕ)
    (position : Vec3) (radius height : ℚ) (d : MetavoxelData)
    (hnodup : (d.spanners.map fun x => x.2.sid).Nodup)
    (hfresh : ∀ p ∈ d.spanners, ∀ ns,
      ops.paintHeight p.2 position radius height = some ns →
      ns.sid ∉ d.spanners.map fun x => x.2.sid) :
    MetavoxelEdit.apply ops objects fuel
      (.paintHeightfieldHeight position radius height) d =
    ⟨d.size,
      d.spanners.map fun p =>
        match ops.paintHeight p.2 position radius height with
        | some ns =>
          if p.1 == spannersAttribute && p.2.bounds.intersectsB
              ⟨Vec3.sub position
                ⟨radius * (11/10), radius * (11/10), radius * (11/10)⟩,
               Vec3.add position
                ⟨radius * (11/10), radius * (11/10), radius * (11/10)⟩⟩
          then (p.1, ns) else p
        | none => p,
      d.root⟩ := by
  simp only [MetavoxelEdit.apply, getIntersecting]
  rw [foldl_replace_eq_map spannersAttribute
    (fun s => ops.paintHeight s position radius height)]
  congr 1
  apply List.map_congr_left
  intro p hp
  exact foldl_paintEntry_characterize spannersAttribute
    (fun s => ops.paintHeight s position radius height)
    (fun s => s.bounds.intersectsB
      ⟨Vec3.sub position
        ⟨radius * (11/10), radius * (11/10), radius * (11/10)⟩,
       Vec3.add position
        ⟨radius * (11/10), radius * (11/10), radius * (11/10)⟩⟩)
    d.spanners hnodup p hp (hfresh p hp)

/-- Witness for C8: one stored spanner at the spanners attribute, painted
with a fresh-identity result, is replaced in the collection. -/
theorem C8_paintHeightfieldHeight_characterization_witness :
    MetavoxelEdit.apply
      ⟨fun s _ _ _ => some ⟨s.sid + 100, s.bounds, s.placementGranularity⟩,
        fun _ _ _ _ _ => none, fun _ _ _ => false⟩
      (fun _ => none) 0
      (.paintHeightfieldHeight ⟨0, 0, 0⟩ 1 2)
      ⟨1, [(0, ⟨1, ⟨⟨0, 0, 0⟩, ⟨1, 1, 1⟩⟩, 1⟩)], .leaf ⟨0, 0⟩⟩ =
    ⟨(⟨1, [(0, ⟨1, ⟨⟨0, 0, 0⟩, ⟨1, 1, 1⟩⟩, 1⟩)], .leaf ⟨0, 0⟩⟩ :
        MetavoxelData).size,
      (⟨1, [(0, ⟨1, ⟨⟨0, 0, 0⟩, ⟨1, 1, 1⟩⟩, 1⟩)], .leaf ⟨0, 0⟩⟩ :
        MetavoxelData).spanners.map fun p =>
        match (⟨fun s _ _ _ =>
            some ⟨s.sid + 100, s.bounds, s.placementGranularity⟩,
          fun _ _ _ _ _ => none, fun _ _ _ => false⟩ :
            SpannerOps).paintHeight p.2 ⟨0, 0, 0⟩ 1 2 with
        | some ns =>
          if p.1 == spannersAttribute && p.2.bounds.intersectsB
              ⟨Vec3.sub ⟨0, 0, 0⟩ ⟨1 * (11/10), 1 * (11/10), 1 * (11/10)⟩,
               Vec3.add ⟨0, 0, 0⟩ ⟨1 * (11/10), 1 * (11/10), 1 * (11/10)⟩⟩
          then (p.1, ns) else p
        | none => p,
      (⟨1, [(0, ⟨1, ⟨⟨0, 0, 0⟩, ⟨1, 1, 1⟩⟩, 1⟩)], .leaf ⟨0, 0⟩⟩ :
        MetavoxelData).root⟩ :=
  C8_paintHeightfieldHeight_characterization
    ⟨fun s _ _ _ => some ⟨s.sid + 100, s.bounds, s.placementGranularity⟩,
      fun _ _ _ _ _ => none, fun _ _ _ => false⟩
    (fun _ => none) 0 ⟨0, 0, 0⟩ 1 2
    ⟨1, [(0, ⟨1, ⟨⟨0, 0, 0⟩, ⟨1, 1, 1⟩⟩, 1⟩)], .leaf ⟨0, 0⟩⟩
    (by simp)
    (by
      intro p hp ns hns
      simp only [List.mem_singleton] at hp
      subst hp
      cases hns
      simp)
